import Mathlib

/-
  Verification development for the MTGL-ADMET model definition module
  (src/Experiments/model.py).

  Shallow embedding conventions:
  * A tensor is a shape (rows, cols) together with a total data function
    into ℚ; entries outside the shape are irrelevant.
  * A batched DGL graph carries the node count, the number of graphs in
    the batch, the node-to-graph assignment, a (normalized) adjacency
    coefficient matrix consumed by the graph convolution, and a node-data
    store with the two keys ('h', 'w') this code uses.
  * Python runtime faults are modelled with `Except Err`:
    `Err.index` for IndexError on list indexing, `Err.shape` for the
    substrate's dimension-mismatch faults, `Err.unbound` for
    UnboundLocalError, `Err.key` for a missing node-data key, `Err.ty`
    for a tuple-unpacking mismatch.
  * The sigmoid of `nn.Sigmoid` and the exponential inside `F.softmax`
    are transcendental, hence kept as abstract function parameters
    (`s`, `e`) of the forward passes; `F.relu` is `max 0` and is
    defined concretely.  `nn.Dropout` acts as the identity in
    evaluation mode and `nn.BatchNorm1d` as a learned per-column affine
    map (evaluation mode); both are modelled accordingly.
-/

namespace MTGL

/-- Runtime fault kinds of the Python/substrate code. -/
inductive Err where
  | index
  | shape
  | unbound
  | key
  | ty
deriving DecidableEq

/-- A dense 2-D tensor: shape plus data. -/
structure Tensor where
  rows : ℕ
  cols : ℕ
  data : ℕ → ℕ → ℚ

/-- Node-data keys used by the model ('h' and 'w'). -/
inductive Key where
  | h
  | w
deriving DecidableEq

/-- A batched DGL graph. `adj` is the normalized adjacency coefficient
matrix that the graph convolution consumes; `graphOf` assigns every node
to its graph in the batch; `ndata` is the persistent node-data store. -/
structure Graph where
  numNodes : ℕ
  numGraphs : ℕ
  graphOf : ℕ → ℕ
  adj : ℕ → ℕ → ℚ
  ndata : Key → Option Tensor

/-- `bg.ndata[k] = t`: DGL checks that the first dimension of the
assigned tensor equals the number of nodes. -/
def Graph.setN (bg : Graph) (k : Key) (t : Tensor) : Except Err Graph :=
  if t.rows = bg.numNodes then
    .ok { bg with ndata := fun k2 => if k2 = k then some t else bg.ndata k2 }
  else .error .shape

/-- The graph produced by a successful node-data assignment. -/
def Graph.withN (bg : Graph) (k : Key) (t : Tensor) : Graph :=
  { bg with ndata := fun k2 => if k2 = k then some t else bg.ndata k2 }

/-- F.relu. -/
def relu (x : ℚ) : ℚ := max 0 x

/-- Pointwise map over a tensor. -/
def Tensor.map (f : ℚ → ℚ) (t : Tensor) : Tensor :=
  ⟨t.rows, t.cols, fun r c => f (t.data r c)⟩

/-- Elementwise addition; at every use site both operands have equal
shape, so we keep the first operand's shape. -/
def Tensor.add (a b : Tensor) : Tensor :=
  ⟨a.rows, a.cols, fun r c => a.data r c + b.data r c⟩

/-- torch.cat along dim=1 for 2-D tensors (column-wise concatenation). -/
def Tensor.hcat (a b : Tensor) : Tensor :=
  ⟨a.rows, a.cols + b.cols, fun r c => if c < a.cols then a.data r c else b.data r (c - a.cols)⟩

/-- Python list indexing `l[i]`, raising IndexError out of range. -/
def getI {α : Type} (l : List α) (i : ℕ) : Except Err α :=
  match l[i]? with
  | some a => .ok a
  | none => .error .index

/-- nn.Linear: `y = x Wᵀ + b`; the substrate checks that the last
dimension of the input equals `in_features`. -/
structure Linear where
  in_features : ℕ
  out_features : ℕ
  weight : ℕ → ℕ → ℚ
  bias : ℕ → ℚ

def Linear.apply (l : Linear) (x : Tensor) : Except Err Tensor :=
  if x.cols = l.in_features then
    .ok ⟨x.rows, l.out_features,
      fun r c => (∑ k in Finset.range l.in_features, x.data r k * l.weight c k) + l.bias c⟩
  else .error .shape

/-- nn.BatchNorm1d in evaluation mode: a per-column affine map with the
learned/running statistics folded into `scale` and `shift`; the width
must equal `num_features`. -/
structure BatchNorm1d where
  num_features : ℕ
  scale : ℕ → ℚ
  shift : ℕ → ℚ

def BatchNorm1d.apply (b : BatchNorm1d) (x : Tensor) : Except Err Tensor :=
  if x.cols = b.num_features then
    .ok ⟨x.rows, x.cols, fun r c => b.scale c * x.data r c + b.shift c⟩
  else .error .shape

/-- dgl GraphConv with bias and a fused activation: `f (Â X W + b)`,
where `Â` is the graph's normalized adjacency coefficient matrix.  The
substrate checks that the node dimension matches the graph and the
feature width matches `in_feats`. -/
structure GraphConv where
  in_feats : ℕ
  out_feats : ℕ
  activation : ℚ → ℚ
  weight : ℕ → ℕ → ℚ
  bias : ℕ → ℚ

def GraphConv.apply (c : GraphConv) (g : Graph) (x : Tensor) : Except Err Tensor :=
  if x.rows = g.numNodes ∧ x.cols = c.in_feats then
    .ok ⟨g.numNodes, c.out_feats, fun v o =>
      c.activation ((∑ u in Finset.range g.numNodes, g.adj v u *
        (∑ k in Finset.range c.in_feats, x.data u k * c.weight k o)) + c.bias o)⟩
  else .error .shape

/-- dgl.readout.sum_nodes bg hk wk: per-graph weighted sum of the node
field `hk` with the scalar node weights `wk`. -/
def sum_nodes (bg : Graph) (hk wk : Key) : Except Err Tensor :=
  match bg.ndata hk, bg.ndata wk with
  | some h, some w =>
      .ok ⟨bg.numGraphs, h.cols, fun b c =>
        ∑ n in Finset.range bg.numNodes,
          if bg.graphOf n = b then w.data n 0 * h.data n c else 0⟩
  | _, _ => .error .key

/-- dgl.mean_nodes bg k: per-graph mean of the node field `k`. -/
def mean_nodes (bg : Graph) (k : Key) : Except Err Tensor :=
  match bg.ndata k with
  | some h =>
      .ok ⟨bg.numGraphs, h.cols, fun b c =>
        (∑ n in Finset.range bg.numNodes, if bg.graphOf n = b then h.data n c else 0) /
          (((Finset.range bg.numNodes).filter (fun n => bg.graphOf n = b)).card : ℚ)⟩
  | none => .error .key

/-- F.softmax along the last dimension, with the exponential `e` kept
abstract. -/
def softmaxRow (e : ℚ → ℚ) (t : Tensor) : Tensor :=
  ⟨t.rows, t.cols, fun r c =>
    e (t.data r c) / ∑ j in Finset.range t.cols, e (t.data r j)⟩

/-- Arbitrary learned parameters for a family of layers: `w i` / `b i`
are the weight and bias of the i-th linear layer of the family, and
`s i` / `t i` the affine coefficients of the i-th batch-norm layer. -/
structure Params where
  w : ℕ → ℕ → ℕ → ℚ
  b : ℕ → ℕ → ℚ
  s : ℕ → ℕ → ℚ
  t : ℕ → ℕ → ℚ

/-- The all-zero parameter family (used to build concrete instances). -/
def Params.zero : Params := ⟨fun _ _ _ => 0, fun _ _ => 0, fun _ _ => 0, fun _ _ => 0⟩

/-! ## ResGCNLayer -/

structure ResGCNLayer where
  graph_conv_layer : GraphConv
  activation : ℚ → ℚ
  residual : Bool
  res_connection : Option Linear
  bn : Bool
  bn_layer : Option BatchNorm1d

/-- ResGCNLayer.__init__: the residual projection and the batch-norm
layer are created only when the corresponding flag is set. -/
def ResGCNLayer.init (in_feats out_feats : ℕ) (f : ℚ → ℚ)
    (residual batchnorm : Bool) (θ : Params) : ResGCNLayer :=
  { graph_conv_layer := ⟨in_feats, out_feats, f, θ.w 0, θ.b 0⟩
  , activation := f
  , residual := residual
  , res_connection := if residual then some ⟨in_feats, out_feats, θ.w 1, θ.b 1⟩ else none
  , bn := batchnorm
  , bn_layer := if batchnorm then some ⟨out_feats, θ.s 0, θ.t 0⟩ else none }

/-- ResGCNLayer.forward.  The trailing `del res_feats` statement of the
source refers to a local that is assigned only inside the
`if self.residual:` branch, so when `residual` is disabled the statement
raises UnboundLocalError after the result has been computed. -/
def ResGCNLayer.forward (m : ResGCNLayer) (bg : Graph) (node_feats : Tensor) :
    Except Err Tensor := do
  let conv ← m.graph_conv_layer.apply bg node_feats
  let new_feats ←
    if m.residual then do
      let l ← match m.res_connection with
              | some l => Except.ok l
              | none => Except.error Err.unbound
      let lr ← l.apply node_feats
      Except.ok (Tensor.add conv (Tensor.map m.activation lr))
    else Except.ok conv
  let new_feats2 ←
    match m.bn, m.bn_layer with
    | true, some b => b.apply new_feats
    | true, none => Except.error Err.unbound
    | false, _ => Except.ok new_feats
  if m.residual then Except.ok new_feats2 else Except.error Err.unbound

/-! ## WeightAndSum -/

/-- atom_weight: Sequential(Linear(in_feats, 1), Sigmoid()), with the
sigmoid abstract. -/
def atomWeight (s : ℚ → ℚ) (l : Linear) (x : Tensor) : Except Err Tensor := do
  let y ← l.apply x
  Except.ok (Tensor.map s y)

structure WeightAndSum where
  attention : Bool
  in_feats : ℕ
  task_num : ℕ
  return_weight : Bool
  atom_weighting_specific : List Linear
  shared_weighting : Linear

def WeightAndSum.init (in_feats task_num : ℕ) (attention return_weight : Bool)
    (θ : Params) : WeightAndSum :=
  { attention := attention
  , in_feats := in_feats
  , task_num := task_num
  , return_weight := return_weight
  , atom_weighting_specific :=
      (List.range task_num).map (fun i => ⟨in_feats, 1, θ.w i, θ.b i⟩)
  , shared_weighting := ⟨in_feats, 1, θ.w task_num, θ.b task_num⟩ }

/-- The possible return values of WeightAndSum.forward. -/
inductive WASOut where
  | withWeight (feat_list atom_list : List Tensor)
  | list (feat_list : List Tensor)
  | single (t : Tensor)

/-- One iteration of the specific-feature loop of WeightAndSum.forward.
All node-data writes happen on a local copy of the graph
(`with bg.local_scope():`), which is discarded at the end of the
iteration. -/
def WeightAndSum.specificStep (m : WeightAndSum) (s : ℚ → ℚ) (bg : Graph)
    (feats : Tensor) (i : ℕ) : Except Err (Tensor × Tensor) := do
  let bg1 ← bg.setN .h feats
  let lin ← getI m.atom_weighting_specific i
  let weight ← atomWeight s lin feats
  let bg2 ← bg1.setN .w weight
  let specific_feats_sum ← sum_nodes bg2 .h .w
  let wOut ← match bg2.ndata .w with
             | some t => Except.ok t
             | none => Except.error Err.key
  Except.ok (specific_feats_sum, wOut)

/-- `for i in range(n)` over `specificStep`, accumulating `feat_list`
and `atom_list` in order. -/
def WeightAndSum.specLoop (m : WeightAndSum) (s : ℚ → ℚ) (bg : Graph)
    (feats : Tensor) : ℕ → Except Err (List Tensor × List Tensor)
  | 0 => .ok ([], [])
  | n + 1 => do
      let (fl, al) ← m.specLoop s bg feats n
      let (s, w) ← m.specificStep s bg feats n
      .ok (fl ++ [s], al ++ [w])

/-- WeightAndSum.forward.  The shared weighted sum is computed in its
own local scope; the source line `feat_list.append(shared_feats_sum)` is
commented out, so the shared embedding is returned only when
`attention` is disabled.  The input graph itself is never written. -/
def WeightAndSum.forward (m : WeightAndSum) (s : ℚ → ℚ) (bg : Graph)
    (feats : Tensor) : Except Err (WASOut × Graph) := do
  let (feat_list, _atom_list) ← m.specLoop s bg feats m.task_num
  let bg1 ← bg.setN .h feats
  let sw ← atomWeight s m.shared_weighting feats
  let bg2 ← bg1.setN .w sw
  let shared_feats_sum ← sum_nodes bg2 .h .w
  if m.attention then
    if m.return_weight then Except.ok (.withWeight feat_list _atom_list, bg)
    else Except.ok (.list feat_list, bg)
  else Except.ok (.single shared_feats_sum, bg)

/-! ## MTGL_ADMET -/

/-- fc_layer: Sequential(Dropout, Linear, ReLU, BatchNorm1d).  Dropout
is the identity in evaluation mode; its probability is kept as data. -/
structure FCLayer where
  dropout : ℚ
  lin : Linear
  bn : BatchNorm1d

def FCLayer.init (dropout : ℚ) (in_feats hidden_feats : ℕ) (θ : Params)
    (i : ℕ) : FCLayer :=
  { dropout := dropout
  , lin := ⟨in_feats, hidden_feats, θ.w i, θ.b i⟩
  , bn := ⟨hidden_feats, θ.s i, θ.t i⟩ }

def FCLayer.apply (f : FCLayer) (x : Tensor) : Except Err Tensor := do
  let y ← f.lin.apply x
  f.bn.apply (Tensor.map relu y)

structure MTGL_ADMET where
  task_num : ℕ
  return_weight : Bool
  weighted_sum_readout : WeightAndSum
  num_experts : ℕ
  num_gates : ℕ
  conv1 : ResGCNLayer
  conv2 : ResGCNLayer
  gates : List Linear
  fine_f : List FCLayer
  fc_layers1 : List FCLayer
  fc_layers2 : List FCLayer
  output_layer1 : List Linear

/-- MTGL_ADMET.__init__.  Note that every gate is `nn.Linear(64, 2)`
with the literal width 64, independent of `gnn_out_feats`; `num_experts`
and `num_gates` are the literals 5 and 4; `fine_f` is rebuilt on every
iteration of its loop and never used by `forward`.  `θ f` supplies the
parameters of layer family `f`. -/
def MTGL_ADMET.init (in_feats hidden_feats gnn_out_feats n_tasks : ℕ)
    (return_weight : Bool) (classifier_hidden_feats : ℕ) (dropout : ℚ)
    (θ : ℕ → Params) : MTGL_ADMET :=
  { task_num := n_tasks
  , return_weight := return_weight
  , weighted_sum_readout :=
      WeightAndSum.init gnn_out_feats n_tasks true return_weight (θ 2)
  , num_experts := 5
  , num_gates := 4
  , conv1 := ResGCNLayer.init in_feats hidden_feats relu true true (θ 0)
  , conv2 := ResGCNLayer.init hidden_feats gnn_out_feats relu true true (θ 1)
  , gates := (List.range n_tasks).map (fun i => ⟨64, 2, (θ 3).w i, (θ 3).b i⟩)
  , fine_f := (List.range n_tasks).map (FCLayer.init dropout gnn_out_feats gnn_out_feats (θ 4))
  , fc_layers1 := (List.range n_tasks).map (FCLayer.init dropout gnn_out_feats classifier_hidden_feats (θ 5))
  , fc_layers2 := (List.range n_tasks).map (FCLayer.init dropout classifier_hidden_feats classifier_hidden_feats (θ 6))
  , output_layer1 := (List.range n_tasks).map (fun i => ⟨classifier_hidden_feats, 1, (θ 7).w i, (θ 7).b i⟩) }

/-- One iteration of the gating loop of MTGL_ADMET.forward:
`x = feats_list[i]`, `y = feats_list[num_gates]`,
`gate = softmax(self.gates[i](hg))`, and the gated combination
`m = gate[:,0]·x + gate[:,1]·y` (the unsqueeze/cat/sum dance of the
source computes exactly this blend). -/
def MTGL_ADMET.gateStep (m : MTGL_ADMET) (e : ℚ → ℚ) (hg : Tensor)
    (feats_list : List Tensor) (i : ℕ) : Except Err Tensor := do
  let x ← getI feats_list i
  let y ← getI feats_list m.num_gates
  let gl ← getI m.gates i
  let g0 ← gl.apply hg
  let gate := softmaxRow e g0
  Except.ok ⟨x.rows, x.cols, fun r c =>
    gate.data r 0 * x.data r c + gate.data r 1 * y.data r c⟩

/-- `for i in range(n)` over `gateStep`, accumulating `combine`. -/
def MTGL_ADMET.gateLoop (m : MTGL_ADMET) (e : ℚ → ℚ) (hg : Tensor)
    (feats_list : List Tensor) : ℕ → Except Err (List Tensor)
  | 0 => .ok []
  | n + 1 => do
      let acc ← m.gateLoop e hg feats_list n
      let t ← m.gateStep e hg feats_list n
      .ok (acc ++ [t])

/-- One iteration of the prediction-head loop: reads `combine_2[i]`,
applies the i-th two fc layers and output layer, and concatenates the
scalar column onto the accumulator (`prediction_all` is unassigned
before the first iteration). -/
def MTGL_ADMET.fcStep (m : MTGL_ADMET) (combine_2 : List Tensor)
    (acc : Option Tensor) (i : ℕ) : Except Err (Option Tensor) := do
  let mol_feats ← getI combine_2 i
  let f1 ← getI m.fc_layers1 i
  let h1 ← f1.apply mol_feats
  let f2 ← getI m.fc_layers2 i
  let h2 ← f2.apply h1
  let ol ← getI m.output_layer1 i
  let predict ← ol.apply h2
  match acc with
  | none => Except.ok (some predict)
  | some p => Except.ok (some (p.hcat predict))

/-- `for i in range(n)` over `fcStep`. -/
def MTGL_ADMET.fcLoop (m : MTGL_ADMET) (combine_2 : List Tensor) :
    ℕ → Except Err (Option Tensor)
  | 0 => .ok none
  | n + 1 => do
      let acc ← m.fcLoop combine_2 n
      m.fcStep combine_2 acc n

/-- MTGL_ADMET.forward.  `s` is the abstract sigmoid of the readout
gates and `e` the abstract exponential of F.softmax.  The assignment
`bg.ndata['h'] = node_feats` before the mean-node pooling is NOT inside
a local scope, so the returned graph retains the field.  If the loop of
the prediction heads runs zero times, the return of `prediction_all`
raises UnboundLocalError. -/
def MTGL_ADMET.forward (m : MTGL_ADMET) (s e : ℚ → ℚ) (bg : Graph)
    (node_feats0 : Tensor) : Except Err (Tensor × Graph) := do
  let node_feats1 ← m.conv1.forward bg node_feats0
  let node_feats ← m.conv2.forward bg node_feats1
  let (wout, bgr) ← m.weighted_sum_readout.forward s bg node_feats
  let feats_list ←
    if m.return_weight then
      match wout with
      | .withWeight fl _ => Except.ok fl
      | _ => Except.error Err.ty
    else
      match wout with
      | .list fl => Except.ok fl
      | _ => Except.error Err.ty
  let bg1 ← bgr.setN .h node_feats
  let hg ← mean_nodes bg1 .h
  let combine ← m.gateLoop e hg feats_list m.num_gates
  let c0 ← getI combine 0
  let c1 ← getI combine 1
  let c2 ← getI combine 2
  let c3 ← getI combine 3
  let combine_1 := ((c0.add c1).add c2).add c3
  let f0 ← getI feats_list 0
  let f1 ← getI feats_list 1
  let f2 ← getI feats_list 2
  let f3 ← getI feats_list 3
  let combine_2 := [f0, combine_1, f1, f2, f3]
  let pred ← m.fcLoop combine_2 m.task_num
  match pred with
  | some prediction_all => Except.ok (prediction_all, bg1)
  | none => Except.error Err.unbound

/-! ## Observation helpers and concrete instances used in closed evaluations -/

/-- The graph component of a forward result (the default is returned in
the error case, where no graph is produced). -/
def resGraph {α : Type} (r : Except Err (α × Graph)) (dflt : Graph) : Graph :=
  match r with
  | .ok (_, g) => g
  | .error _ => dflt

/-- Length of the feature list of a WeightAndSum result in plain
attention mode. -/
def flLen (r : Except Err (WASOut × Graph)) : Option ℕ :=
  match r with
  | .ok (.list fl, _) => some fl.length
  | _ => none

/-- Entry (0,0) of the i-th feature of a WeightAndSum result in plain
attention mode. -/
def flProbe (r : Except Err (WASOut × Graph)) (i : ℕ) : ℚ :=
  match r with
  | .ok (.list fl, _) => ((fl[i]?).map (fun t => t.data 0 0)).getD 0
  | _ => 0

/-- Entry (0,0) of the single (shared) embedding of a WeightAndSum
result with attention disabled. -/
def singleProbe (r : Except Err (WASOut × Graph)) : ℚ :=
  match r with
  | .ok (.single t, _) => t.data 0 0
  | _ => 0

/-- A batch of one graph with one node. -/
def cg1 : Graph := ⟨1, 1, fun _ => 0, fun _ _ => 1, fun _ => none⟩

/-- A 1 × 1 node-feature tensor with entry 1. -/
def cf1 : Tensor := ⟨1, 1, fun _ _ => 1⟩

/-- Parameters making the i-th linear layer of a family the constant
map x ↦ i·x + i, so different per-task gates give different values. -/
def θc : Params := ⟨fun i _ _ => (i : ℚ), fun i _ => (i : ℚ), fun _ _ => 0, fun _ _ => 0⟩

/-- WeightAndSum over width 1 with 5 tasks, attention on, weights off. -/
def cwas : WeightAndSum := WeightAndSum.init 1 5 true false θc

/-- Same parameters with return_weight on. -/
def cwasW : WeightAndSum := WeightAndSum.init 1 5 true true θc

/-- Same parameters with attention off. -/
def cwasS : WeightAndSum := WeightAndSum.init 1 5 false false θc

/-- A concrete MTGL_ADMET model with n_tasks = 5 and the default
gnn_out_feats = 64. -/
def cm5 : MTGL_ADMET := MTGL_ADMET.init 1 1 64 5 false 1 0 (fun _ => Params.zero)

/-- The same construction with n_tasks = 3. -/
def cm3 : MTGL_ADMET := MTGL_ADMET.init 1 1 64 3 false 1 0 (fun _ => Params.zero)

/-- The same construction with gnn_out_feats = 63. -/
def cm63 : MTGL_ADMET := MTGL_ADMET.init 1 1 63 5 false 1 0 (fun _ => Params.zero)

/-- A ResGCNLayer built with residual disabled. -/
def crg : ResGCNLayer := ResGCNLayer.init 1 1 relu false true Params.zero

/-! ## Basic lemmas about the embedding -/

@[simp] theorem key_hw : (Key.h = Key.w) = False := by decide

@[simp] theorem key_wh : (Key.w = Key.h) = False := by decide

theorem bindOk {α β : Type} (a : α) (f : α → Except Err β) :
    (Except.ok a >>= f) = f a := rfl

theorem bindErr {α β : Type} (ε : Err) (f : α → Except Err β) :
    ((Except.error ε : Except Err α) >>= f) = Except.error ε := rfl

theorem getI_eq_ok {α : Type} {l : List α} {i : ℕ} {a : α} (h : l[i]? = some a) :
    getI l i = .ok a := by
  simp [getI, h]

theorem getI_eq_err {α : Type} {l : List α} {i : ℕ} (h : l.length ≤ i) :
    getI l i = .error .index := by
  simp [getI, List.getElem?_eq_none_iff.mpr h]

theorem getI_ok_of_lt {α : Type} {l : List α} {i : ℕ} (h : i < l.length) :
    ∃ a, getI l i = .ok a ∧ l[i]? = some a ∧ a ∈ l := by
  have h2 : l[i]? = some (l.get ⟨i, h⟩) := by
    simp [List.getElem?_eq_getElem h]
  exact ⟨l.get ⟨i, h⟩, getI_eq_ok h2, h2, List.getElem?_mem h2⟩

theorem getI_map_range_lt {α : Type} (f : ℕ → α) {n i : ℕ} (h : i < n) :
    getI ((List.range n).map f) i = .ok (f i) := by
  apply getI_eq_ok
  simp [List.getElem?_map, List.getElem?_range, h]

theorem getI_map_range_ge {α : Type} (f : ℕ → α) {n i : ℕ} (h : n ≤ i) :
    getI ((List.range n).map f) i = .error .index := by
  apply getI_eq_err
  simpa using h


theorem Graph.setN_ok {bg : Graph} {k : Key} {t : Tensor} (h : t.rows = bg.numNodes) :
    bg.setN k t = .ok (bg.withN k t) := by
  simp [Graph.setN, Graph.withN, h]

@[simp] theorem Graph.withN_numNodes (bg : Graph) (k : Key) (t : Tensor) :
    (bg.withN k t).numNodes = bg.numNodes := rfl

@[simp] theorem Graph.withN_numGraphs (bg : Graph) (k : Key) (t : Tensor) :
    (bg.withN k t).numGraphs = bg.numGraphs := rfl

@[simp] theorem Graph.withN_ndata_same (bg : Graph) (k : Key) (t : Tensor) :
    (bg.withN k t).ndata k = some t := by
  simp [Graph.withN]

theorem Graph.withN_ndata_other (bg : Graph) {k k2 : Key} (t : Tensor) (h : k2 ≠ k) :
    (bg.withN k t).ndata k2 = bg.ndata k2 := by
  simp [Graph.withN, h]

theorem Linear.apply_ok {l : Linear} {x : Tensor} (h : x.cols = l.in_features) :
    ∃ y, l.apply x = .ok y ∧ y.rows = x.rows ∧ y.cols = l.out_features := by
  refine ⟨⟨x.rows, l.out_features, fun r c =>
    (∑ k in Finset.range l.in_features, x.data r k * l.weight c k) + l.bias c⟩, ?_, rfl, rfl⟩
  simp [Linear.apply, h]

theorem Linear.apply_err {l : Linear} {x : Tensor} (h : x.cols ≠ l.in_features) :
    l.apply x = .error .shape := by
  simp [Linear.apply, h]

theorem BatchNorm1d.applyBN_ok {b : BatchNorm1d} {x : Tensor} (h : x.cols = b.num_features) :
    ∃ y, b.apply x = .ok y ∧ y.rows = x.rows ∧ y.cols = x.cols := by
  refine ⟨⟨x.rows, x.cols, fun r c => b.scale c * x.data r c + b.shift c⟩, ?_, rfl, rfl⟩
  simp [BatchNorm1d.apply, h]

theorem GraphConv.applyConv_ok {c : GraphConv} {g : Graph} {x : Tensor}
    (h1 : x.rows = g.numNodes) (h2 : x.cols = c.in_feats) :
    ∃ y, c.apply g x = .ok y ∧ y.rows = g.numNodes ∧ y.cols = c.out_feats := by
  refine ⟨⟨g.numNodes, c.out_feats, fun v o =>
    c.activation ((∑ u in Finset.range g.numNodes, g.adj v u *
      (∑ k in Finset.range c.in_feats, x.data u k * c.weight k o)) + c.bias o)⟩, ?_, rfl, rfl⟩
  simp [GraphConv.apply, h1, h2]

theorem atomWeight_ok {s : ℚ → ℚ} {l : Linear} {x : Tensor} (h : x.cols = l.in_features) :
    ∃ w, atomWeight s l x = .ok w ∧ w.rows = x.rows ∧ w.cols = l.out_features := by
  obtain ⟨y, hy, hr, hc⟩ := Linear.apply_ok h
  refine ⟨Tensor.map s y, ?_, hr, hc⟩
  simp [atomWeight, hy, bindOk, Tensor.map]

theorem sum_nodes_ok {bg : Graph} {hk wk : Key} {H W : Tensor}
    (hH : bg.ndata hk = some H) (hW : bg.ndata wk = some W) :
    ∃ s, sum_nodes bg hk wk = .ok s ∧ s.rows = bg.numGraphs ∧ s.cols = H.cols := by
  refine ⟨⟨bg.numGraphs, H.cols, fun b c =>
    ∑ n in Finset.range bg.numNodes,
      if bg.graphOf n = b then W.data n 0 * H.data n c else 0⟩, ?_, rfl, rfl⟩
  simp [sum_nodes, hH, hW]

theorem mean_nodes_ok {g : Graph} {k : Key} {H : Tensor} (hH : g.ndata k = some H) :
    ∃ t, mean_nodes g k = .ok t ∧ t.rows = g.numGraphs ∧ t.cols = H.cols := by
  refine ⟨⟨g.numGraphs, H.cols, fun b c =>
    (∑ n in Finset.range g.numNodes, if g.graphOf n = b then H.data n c else 0) /
      (((Finset.range g.numNodes).filter (fun n => g.graphOf n = b)).card : ℚ)⟩, ?_, rfl, rfl⟩
  simp [mean_nodes, hH]

/-! ## ResGCNLayer characterizations -/

theorem ResGCNLayer.init_forward_ok {inF o : ℕ} {f : ℚ → ℚ} {θ : Params}
    {bg : Graph} {x : Tensor} (h1 : x.rows = bg.numNodes) (h2 : x.cols = inF) :
    ∃ t, (ResGCNLayer.init inF o f true true θ).forward bg x = .ok t ∧
      t.rows = bg.numNodes ∧ t.cols = o := by
  obtain ⟨t1, e1, r1, c1⟩ := GraphConv.applyConv_ok (c := ⟨inF, o, f, θ.w 0, θ.b 0⟩) h1 h2
  obtain ⟨t2, e2, r2, c2⟩ := Linear.apply_ok (l := ⟨inF, o, θ.w 1, θ.b 1⟩) h2
  obtain ⟨t3, e3, r3, c3⟩ := BatchNorm1d.applyBN_ok (b := ⟨o, θ.s 0, θ.t 0⟩)
      (x := Tensor.add t1 (Tensor.map f t2)) (by simpa [Tensor.add] using c1)
  refine ⟨t3, ?_, ?_, ?_⟩
  · simp only [ResGCNLayer.forward, ResGCNLayer.init, e1, bindOk, if_true]
    simp only [bindOk, e2, e3, if_true]
  · rw [r3]; simpa [Tensor.add] using r1
  · rw [c3]; simpa [Tensor.add] using c1

theorem ResGCNLayer.init_forward_no_residual {inF o : ℕ} {f : ℚ → ℚ} {bnf : Bool}
    {θ : Params} {bg : Graph} {x : Tensor} (h1 : x.rows = bg.numNodes) (h2 : x.cols = inF) :
    (ResGCNLayer.init inF o f false bnf θ).forward bg x = .error .unbound := by
  obtain ⟨t1, e1, r1, c1⟩ := GraphConv.applyConv_ok (c := ⟨inF, o, f, θ.w 0, θ.b 0⟩) h1 h2
  cases bnf with
  | false =>
      simp [ResGCNLayer.forward, ResGCNLayer.init, e1, bindOk]
  | true =>
      obtain ⟨t3, e3, r3, c3⟩ := BatchNorm1d.applyBN_ok (b := ⟨o, θ.s 0, θ.t 0⟩) (x := t1) c1
      simp [ResGCNLayer.forward, ResGCNLayer.init, e1, e3, bindOk]

/-! ## WeightAndSum characterizations -/

theorem WeightAndSum.init_specificStep_ok {F T : ℕ} {v r : Bool} {θ : Params}
    {s : ℚ → ℚ} {bg : Graph} {feats : Tensor} {i : ℕ}
    (hr : feats.rows = bg.numNodes) (hc : feats.cols = F) (hi : i < T) :
    ∃ y w, (WeightAndSum.init F T v r θ).specificStep s bg feats i = .ok (y, w) ∧
      y.rows = bg.numGraphs ∧ y.cols = feats.cols ∧ w.rows = feats.rows ∧ w.cols = 1 := by
  have h1 : bg.setN .h feats = .ok (bg.withN .h feats) := Graph.setN_ok hr
  have h2 : getI (WeightAndSum.init F T v r θ).atom_weighting_specific i =
      .ok ⟨F, 1, θ.w i, θ.b i⟩ := by
    simpa [WeightAndSum.init] using
      getI_map_range_lt (fun j => (⟨F, 1, θ.w j, θ.b j⟩ : Linear)) hi
  obtain ⟨w, hw, hwr, hwc⟩ :=
    atomWeight_ok (s := s) (l := ⟨F, 1, θ.w i, θ.b i⟩) (x := feats) hc
  have h3 : (bg.withN .h feats).setN .w w = .ok ((bg.withN .h feats).withN .w w) :=
    Graph.setN_ok (by simp [hwr, hr])
  have hh : ((bg.withN .h feats).withN .w w).ndata .h = some feats := by
    rw [Graph.withN_ndata_other _ _ (by decide)]
    simp
  have hww : ((bg.withN .h feats).withN .w w).ndata .w = some w := by simp
  obtain ⟨y, hy, hyr, hyc⟩ := sum_nodes_ok hh hww
  refine ⟨y, w, ?_, by simpa using hyr, hyc, hwr, hwc⟩
  simp only [WeightAndSum.specificStep, h1, bindOk, h2, hw, h3, hy, hh, hww]

theorem WeightAndSum.init_specificStep_err {F T : ℕ} {v r : Bool} {θ : Params}
    {s : ℚ → ℚ} {bg : Graph} {feats : Tensor} {i : ℕ}
    (hr : feats.rows = bg.numNodes) (hi : T ≤ i) :
    (WeightAndSum.init F T v r θ).specificStep s bg feats i = .error .index := by
  have h1 : bg.setN .h feats = .ok (bg.withN .h feats) := Graph.setN_ok hr
  have h2 : getI (WeightAndSum.init F T v r θ).atom_weighting_specific i =
      .error .index := by
    simpa [WeightAndSum.init] using
      getI_map_range_ge (fun j => (⟨F, 1, θ.w j, θ.b j⟩ : Linear)) hi
  simp only [WeightAndSum.specificStep, h1, bindOk, h2, bindErr]

theorem WeightAndSum.init_specLoop_ok {F T : ℕ} {v r : Bool} {θ : Params}
    {s : ℚ → ℚ} {bg : Graph} {feats : Tensor}
    (hr : feats.rows = bg.numNodes) (hc : feats.cols = F) :
    ∀ k, k ≤ T →
    ∃ fl al, (WeightAndSum.init F T v r θ).specLoop s bg feats k = .ok (fl, al) ∧
      fl.length = k ∧ al.length = k ∧
      (∀ i, i < k →
        ∃ y w, (WeightAndSum.init F T v r θ).specificStep s bg feats i = .ok (y, w) ∧
          fl[i]? = some y ∧ al[i]? = some w) ∧
      (∀ t ∈ fl, t.rows = bg.numGraphs ∧ t.cols = feats.cols) ∧
      (∀ w ∈ al, w.rows = feats.rows ∧ w.cols = 1) := by
  intro k
  induction k with
  | zero =>
      intro _
      exact ⟨[], [], rfl, rfl, rfl, fun i hi => absurd hi (Nat.not_lt_zero i),
        fun t ht => absurd ht (List.not_mem_nil t), fun w hw => absurd hw (List.not_mem_nil w)⟩
  | succ k ih =>
      intro hk
      obtain ⟨fl, al, hloop, hfl, hal, hidx, hflS, halS⟩ := ih (Nat.le_of_succ_le hk)
      obtain ⟨y, w, hstep, hyr, hyc, hwr, hwc⟩ :=
        WeightAndSum.init_specificStep_ok (v := v) (r := r) (θ := θ) (s := s)
          hr hc (Nat.lt_of_succ_le hk)
      refine ⟨fl ++ [y], al ++ [w], ?_, ?_, ?_, ?_, ?_, ?_⟩
      · simp only [WeightAndSum.specLoop, hloop, bindOk, hstep]
      · simp [hfl]
      · simp [hal]
      · intro i hi
        rcases Nat.lt_succ_iff_lt_or_eq.mp hi with hik | hik
        · obtain ⟨y2, w2, hstep2, hfl2, hal2⟩ := hidx i hik
          refine ⟨y2, w2, hstep2, ?_, ?_⟩
          · rw [List.getElem?_append_left (by omega : i < fl.length), hfl2]
          · rw [List.getElem?_append_left (by omega : i < al.length), hal2]
        · subst hik
          refine ⟨y, w, hstep, ?_, ?_⟩
          · rw [← hfl, List.getElem?_concat_length]
          · rw [← hal, List.getElem?_concat_length]
      · intro t ht
        rcases List.mem_append.mp ht with ht | ht
        · exact hflS t ht
        · rw [List.mem_singleton.mp ht]; exact ⟨hyr, hyc⟩
      · intro w2 hw2
        rcases List.mem_append.mp hw2 with hw2 | hw2
        · exact halS w2 hw2
        · rw [List.mem_singleton.mp hw2]; exact ⟨hwr, hwc⟩

theorem WeightAndSum.init_forward_run {F T : ℕ} {v r : Bool} {θ : Params}
    {s : ℚ → ℚ} {bg : Graph} {feats : Tensor} {fl al : List Tensor}
    (hr : feats.rows = bg.numNodes) (hc : feats.cols = F)
    (hloop : (WeightAndSum.init F T v r θ).specLoop s bg feats T = .ok (fl, al)) :
    ∃ sh, sh.rows = bg.numGraphs ∧ sh.cols = feats.cols ∧
      (WeightAndSum.init F T v r θ).forward s bg feats =
        .ok ((if v then (if r then .withWeight fl al else .list fl) else .single sh), bg) := by
  have h1 : bg.setN .h feats = .ok (bg.withN .h feats) := Graph.setN_ok hr
  obtain ⟨sw, hsw, hswr, hswc⟩ :=
    atomWeight_ok (s := s) (l := ⟨F, 1, θ.w T, θ.b T⟩) (x := feats) hc
  have h3 : (bg.withN .h feats).setN .w sw = .ok ((bg.withN .h feats).withN .w sw) :=
    Graph.setN_ok (by simp [hswr, hr])
  have hh : ((bg.withN .h feats).withN .w sw).ndata .h = some feats := by
    rw [Graph.withN_ndata_other _ _ (by decide)]
    simp
  have hww : ((bg.withN .h feats).withN .w sw).ndata .w = some sw := by simp
  obtain ⟨sh, hsh, hshr, hshc⟩ := sum_nodes_ok hh hww
  refine ⟨sh, by simpa using hshr, hshc, ?_⟩
  have hT : (WeightAndSum.init F T v r θ).task_num = T := rfl
  have hAtt : (WeightAndSum.init F T v r θ).attention = v := rfl
  have hRw : (WeightAndSum.init F T v r θ).return_weight = r := rfl
  simp only [WeightAndSum.forward, hT, hloop, bindOk, h1]
  have hShared : (WeightAndSum.init F T v r θ).shared_weighting =
      (⟨F, 1, θ.w T, θ.b T⟩ : Linear) := rfl
  simp only [hShared, hsw, bindOk, h3, hsh, hAtt, hRw]
  cases v <;> cases r <;> simp

theorem WeightAndSum.forward_graph_eq {m : WeightAndSum} {s : ℚ → ℚ} {bg : Graph}
    {feats : Tensor} {o : WASOut} {g2 : Graph}
    (h : m.forward s bg feats = .ok (o, g2)) : g2 = bg := by
  unfold WeightAndSum.forward at h
  cases hl : m.specLoop s bg feats m.task_num with
  | error ε => rw [hl] at h; simp [bindErr] at h
  | ok p =>
    obtain ⟨fl, al⟩ := p
    rw [hl] at h
    simp only [bindOk] at h
    cases h1 : bg.setN .h feats with
    | error ε => rw [h1] at h; simp [bindErr] at h
    | ok bg1 =>
      rw [h1] at h
      simp only [bindOk] at h
      cases h2 : atomWeight s m.shared_weighting feats with
      | error ε => rw [h2] at h; simp [bindErr] at h
      | ok sw =>
        rw [h2] at h
        simp only [bindOk] at h
        cases h3 : bg1.setN .w sw with
        | error ε => rw [h3] at h; simp [bindErr] at h
        | ok bg2 =>
          rw [h3] at h
          simp only [bindOk] at h
          cases h4 : sum_nodes bg2 .h .w with
          | error ε => rw [h4] at h; simp [bindErr] at h
          | ok sh =>
            rw [h4] at h
            simp only [bindOk] at h
            cases hA : m.attention <;> cases hR : m.return_weight <;>
              rw [hA, hR] at h <;> simp at h <;> exact h.2.symm

/-! ## MTGL_ADMET characterizations -/

theorem FCLayer.init_apply_ok {d : ℚ} {a b : ℕ} {θ : Params} {i : ℕ} {x : Tensor}
    (h : x.cols = a) :
    ∃ y, (FCLayer.init d a b θ i).apply x = .ok y ∧ y.rows = x.rows ∧ y.cols = b := by
  obtain ⟨y1, hy1, hr1, hc1⟩ := Linear.apply_ok (l := ⟨a, b, θ.w i, θ.b i⟩) h
  obtain ⟨y2, hy2, hr2, hc2⟩ := BatchNorm1d.applyBN_ok (b := ⟨b, θ.s i, θ.t i⟩)
      (x := Tensor.map relu y1) (by simpa [Tensor.map] using hc1)
  refine ⟨y2, ?_, ?_, ?_⟩
  · simp only [FCLayer.apply, FCLayer.init, hy1, bindOk, hy2]
  · rw [hr2]; simpa [Tensor.map] using hr1
  · rw [hc2]; simpa [Tensor.map] using hc1

section GateFc

variable {a b u n : ℕ} {r : Bool} {c : ℕ} {d : ℚ} {θ : ℕ → Params}

theorem MTGL_ADMET.init_gateStep_ok {e : ℚ → ℚ} {hg : Tensor} {fl : List Tensor}
    {i : ℕ} {x y : Tensor}
    (hi : i < n) (hx : fl[i]? = some x) (hy : fl[4]? = some y) (hhg : hg.cols = 64) :
    ∃ t, (MTGL_ADMET.init a b u n r c d θ).gateStep e hg fl i = .ok t ∧
      t.rows = x.rows ∧ t.cols = x.cols := by
  have hng : (MTGL_ADMET.init a b u n r c d θ).num_gates = 4 := rfl
  have hgl : getI (MTGL_ADMET.init a b u n r c d θ).gates i =
      .ok ⟨64, 2, (θ 3).w i, (θ 3).b i⟩ := by
    simpa [MTGL_ADMET.init] using
      getI_map_range_lt (fun j => (⟨64, 2, (θ 3).w j, (θ 3).b j⟩ : Linear)) hi
  obtain ⟨g0, hg0, hg0r, hg0c⟩ :=
    Linear.apply_ok (l := ⟨64, 2, (θ 3).w i, (θ 3).b i⟩) (x := hg) hhg
  refine ⟨⟨x.rows, x.cols, fun r c =>
    (softmaxRow e g0).data r 0 * x.data r c + (softmaxRow e g0).data r 1 * y.data r c⟩,
    ?_, rfl, rfl⟩
  simp only [MTGL_ADMET.gateStep, hng, getI_eq_ok hx, bindOk, getI_eq_ok hy, hgl, hg0]

theorem MTGL_ADMET.init_gateStep_err_of_short {e : ℚ → ℚ} {hg : Tensor} {fl : List Tensor}
    (hlen : fl.length ≤ 4) :
    (MTGL_ADMET.init a b u n r c d θ).gateStep e hg fl 0 = .error .index := by
  have hng : (MTGL_ADMET.init a b u n r c d θ).num_gates = 4 := rfl
  cases hx : fl[0]? with
  | none =>
      have h0 : fl.length ≤ 0 := by
        simpa using List.getElem?_eq_none_iff.mp hx
      simp only [MTGL_ADMET.gateStep, getI_eq_err h0, bindErr]
  | some x =>
      have h4 : fl[4]? = none := List.getElem?_eq_none_iff.mpr hlen
      simp only [MTGL_ADMET.gateStep, hng, getI, hx, h4, bindOk, bindErr]

theorem MTGL_ADMET.init_gateStep_err_shape {e : ℚ → ℚ} {hg : Tensor} {fl : List Tensor}
    {x y : Tensor}
    (hn : 0 < n) (hx : fl[0]? = some x) (hy : fl[4]? = some y) (hhg : hg.cols ≠ 64) :
    (MTGL_ADMET.init a b u n r c d θ).gateStep e hg fl 0 = .error .shape := by
  have hng : (MTGL_ADMET.init a b u n r c d θ).num_gates = 4 := rfl
  have hgl : getI (MTGL_ADMET.init a b u n r c d θ).gates 0 =
      .ok ⟨64, 2, (θ 3).w 0, (θ 3).b 0⟩ := by
    simpa [MTGL_ADMET.init] using
      getI_map_range_lt (fun j => (⟨64, 2, (θ 3).w j, (θ 3).b j⟩ : Linear)) hn
  have happ : Linear.apply ⟨64, 2, (θ 3).w 0, (θ 3).b 0⟩ hg = .error .shape :=
    Linear.apply_err hhg
  simp only [MTGL_ADMET.gateStep, hng, getI_eq_ok hx, bindOk, getI_eq_ok hy, hgl, happ, bindErr]

end GateFc

section GateFcLoops

variable {a b u n : ℕ} {r : Bool} {c : ℕ} {d : ℚ} {θ : ℕ → Params}

theorem MTGL_ADMET.init_gateLoop_ok {e : ℚ → ℚ} {hg : Tensor} {fl : List Tensor} {B C : ℕ}
    (hB : ∀ t ∈ fl, t.rows = B ∧ t.cols = C) (hlen : 4 < fl.length) (hn : 4 ≤ n)
    (hhg : hg.cols = 64) :
    ∀ k, k ≤ 4 →
      ∃ cl, (MTGL_ADMET.init a b u n r c d θ).gateLoop e hg fl k = .ok cl ∧
        cl.length = k ∧ ∀ t ∈ cl, t.rows = B ∧ t.cols = C := by
  intro k
  induction k with
  | zero =>
      intro _
      exact ⟨[], rfl, rfl, fun t ht => absurd ht (List.not_mem_nil t)⟩
  | succ k ih =>
      intro hk
      obtain ⟨cl, hc, hcl, hcS⟩ := ih (Nat.le_of_succ_le hk)
      obtain ⟨x, hgx, hx, hxm⟩ := getI_ok_of_lt (l := fl) (i := k) (by omega)
      obtain ⟨y, hgy, hy, hym⟩ := getI_ok_of_lt (l := fl) (i := 4) hlen
      obtain ⟨t, ht, htr, htc⟩ :=
        MTGL_ADMET.init_gateStep_ok (a := a) (b := b) (u := u) (r := r)
          (c := c) (d := d) (θ := θ) (e := e)
          (show k < n by omega) hx hy hhg
      refine ⟨cl ++ [t], ?_, by simp [hcl], ?_⟩
      · simp only [MTGL_ADMET.gateLoop, hc, bindOk, ht]
      · intro u hu
        rcases List.mem_append.mp hu with hu | hu
        · exact hcS u hu
        · rw [List.mem_singleton.mp hu]
          obtain ⟨hxr, hxc⟩ := hB x hxm
          exact ⟨htr.trans hxr, htc.trans hxc⟩

theorem MTGL_ADMET.gateLoop_err {m : MTGL_ADMET} {e : ℚ → ℚ} {hg : Tensor}
    {fl : List Tensor} {ε : Err} (hstep : m.gateStep e hg fl 0 = .error ε) :
    ∀ k, 1 ≤ k → m.gateLoop e hg fl k = .error ε := by
  intro k
  induction k with
  | zero => intro h; omega
  | succ k ih =>
      intro _
      cases Nat.eq_zero_or_pos k with
      | inl h0 =>
          subst h0
          simp only [MTGL_ADMET.gateLoop, bindOk, hstep, bindErr]
      | inr hpos =>
          have := ih hpos
          simp only [MTGL_ADMET.gateLoop, this, bindErr]

end GateFcLoops

section FcLoops

variable {a b u n : ℕ} {r : Bool} {c : ℕ} {d : ℚ} {θ : ℕ → Params}

theorem MTGL_ADMET.init_fcStep_ok {c2 : List Tensor} {B : ℕ}
    (hc2 : ∀ t ∈ c2, t.rows = B ∧ t.cols = u) {i : ℕ} (hi : i < c2.length) (hin : i < n)
    (acc : Option Tensor) :
    ∃ p, (MTGL_ADMET.init a b u n r c d θ).fcStep c2 acc i = .ok (some p) ∧
      p.rows = (match acc with | none => B | some q => q.rows) ∧
      p.cols = (match acc with | none => 1 | some q => q.cols + 1) := by
  obtain ⟨mol, hgm, hm, hmm⟩ := getI_ok_of_lt hi
  obtain ⟨hmr, hmc⟩ := hc2 mol hmm
  have hf1 : getI (MTGL_ADMET.init a b u n r c d θ).fc_layers1 i =
      .ok (FCLayer.init d u c (θ 5) i) := by
    simpa [MTGL_ADMET.init] using
      getI_map_range_lt (FCLayer.init d u c (θ 5)) hin
  have hf2 : getI (MTGL_ADMET.init a b u n r c d θ).fc_layers2 i =
      .ok (FCLayer.init d c c (θ 6) i) := by
    simpa [MTGL_ADMET.init] using
      getI_map_range_lt (FCLayer.init d c c (θ 6)) hin
  have hol : getI (MTGL_ADMET.init a b u n r c d θ).output_layer1 i =
      .ok ⟨c, 1, (θ 7).w i, (θ 7).b i⟩ := by
    simpa [MTGL_ADMET.init] using
      getI_map_range_lt (fun j => (⟨c, 1, (θ 7).w j, (θ 7).b j⟩ : Linear)) hin
  obtain ⟨h1, hh1, hr1, hc1⟩ :=
    FCLayer.init_apply_ok (d := d) (b := c) (θ := θ 5) (i := i) hmc
  obtain ⟨h2, hh2, hr2, hc2b⟩ :=
    FCLayer.init_apply_ok (d := d) (b := c) (θ := θ 6) (i := i) hc1
  obtain ⟨pr, hpr, hprr, hprc⟩ :=
    Linear.apply_ok (l := ⟨c, 1, (θ 7).w i, (θ 7).b i⟩) (x := h2) hc2b
  have hprB : pr.rows = B := by rw [hprr, hr2, hr1, hmr]
  cases acc with
  | none =>
      refine ⟨pr, ?_, hprB, hprc⟩
      simp only [MTGL_ADMET.fcStep, hgm, bindOk, hf1, hh1, hf2, hh2, hol, hpr]
  | some q =>
      refine ⟨q.hcat pr, ?_, rfl, ?_⟩
      · simp only [MTGL_ADMET.fcStep, hgm, bindOk, hf1, hh1, hf2, hh2, hol, hpr]
      · simp [Tensor.hcat, hprc]

theorem MTGL_ADMET.init_fcLoop_ok {c2 : List Tensor} {B : ℕ}
    (hc2 : ∀ t ∈ c2, t.rows = B ∧ t.cols = u) (hlen : c2.length = 5) :
    ∀ k, k ≤ 5 → k ≤ n →
      (k = 0 ∧ (MTGL_ADMET.init a b u n r c d θ).fcLoop c2 k = .ok none) ∨
      (∃ p, (MTGL_ADMET.init a b u n r c d θ).fcLoop c2 k = .ok (some p) ∧
        p.rows = B ∧ p.cols = k) := by
  intro k
  induction k with
  | zero => intro _ _; exact Or.inl ⟨rfl, rfl⟩
  | succ k ih =>
      intro hk5 hkn
      obtain ⟨pstep, hstep, hstepr, hstepc⟩ :=
        MTGL_ADMET.init_fcStep_ok (a := a) (b := b) (r := r) (c := c) (d := d) (θ := θ)
          hc2 (show k < c2.length by omega) (show k < n by omega) none
      rcases ih (by omega) (by omega) with ⟨hk0, hloop⟩ | ⟨p, hloop, hpr, hpc⟩
      · subst hk0
        refine Or.inr ⟨pstep, ?_, hstepr, hstepc⟩
        simp only [MTGL_ADMET.fcLoop, hloop, bindOk, hstep]
      · obtain ⟨pstep2, hstep2, hstepr2, hstepc2⟩ :=
          MTGL_ADMET.init_fcStep_ok (a := a) (b := b) (r := r) (c := c) (d := d) (θ := θ)
            hc2 (show k < c2.length by omega) (show k < n by omega) (some p)
        refine Or.inr ⟨pstep2, ?_, ?_, ?_⟩
        · simp only [MTGL_ADMET.fcLoop, hloop, bindOk, hstep2]
        · simpa [hpr] using hstepr2
        · simpa [hpc] using hstepc2

theorem MTGL_ADMET.fcStep_err_of_short {m : MTGL_ADMET} {c2 : List Tensor}
    {i : ℕ} (hi : c2.length ≤ i) (acc : Option Tensor) :
    m.fcStep c2 acc i = .error .index := by
  simp only [MTGL_ADMET.fcStep, getI_eq_err hi, bindErr]

theorem MTGL_ADMET.fcLoop_err_ge {m : MTGL_ADMET} {c2 : List Tensor} {k0 : ℕ} {ε : Err}
    (h : m.fcLoop c2 k0 = .error ε) : ∀ k, k0 ≤ k → m.fcLoop c2 k = .error ε := by
  intro k
  induction k with
  | zero => intro hk; simpa [Nat.le_zero.mp hk] using h
  | succ k ih =>
      intro hk
      cases Nat.lt_or_ge k0 (k + 1) with
      | inl hlt =>
          have hk0k : k0 ≤ k := by omega
          have := ih hk0k
          simp only [MTGL_ADMET.fcLoop, this, bindErr]
      | inr hge =>
          have hEq : k0 = k + 1 := by omega
          exact hEq ▸ h

end FcLoops

@[simp] theorem Tensor.add_rows (a b : Tensor) : (a.add b).rows = a.rows := rfl

@[simp] theorem Tensor.add_cols (a b : Tensor) : (a.add b).cols = a.cols := rfl

section ForwardAssembly

variable {a b u n : ℕ} {r : Bool} {c : ℕ} {d : ℚ} {θ : ℕ → Params}
variable {s e : ℚ → ℚ} {bg : Graph} {nf : Tensor}

theorem MTGL_ADMET.init_forward_unfold (h1 : nf.rows = bg.numNodes) (h2 : nf.cols = a) :
    ∃ t2 fl al hgT,
      t2.rows = bg.numNodes ∧ t2.cols = u ∧
      (WeightAndSum.init u n true r (θ 2)).specLoop s bg t2 n = .ok (fl, al) ∧
      fl.length = n ∧ (∀ t ∈ fl, t.rows = bg.numGraphs ∧ t.cols = u) ∧
      hgT.rows = bg.numGraphs ∧ hgT.cols = u ∧
      (MTGL_ADMET.init a b u n r c d θ).forward s e bg nf =
        (do
          let combine ← (MTGL_ADMET.init a b u n r c d θ).gateLoop e hgT fl 4
          let c0 ← getI combine 0
          let c1 ← getI combine 1
          let c2 ← getI combine 2
          let c3 ← getI combine 3
          let combine_1 := ((c0.add c1).add c2).add c3
          let f0 ← getI fl 0
          let f1 ← getI fl 1
          let f2 ← getI fl 2
          let f3 ← getI fl 3
          let combine_2 := [f0, combine_1, f1, f2, f3]
          let pred ← (MTGL_ADMET.init a b u n r c d θ).fcLoop combine_2 n
          match pred with
          | some prediction_all => Except.ok (prediction_all, bg.withN .h t2)
          | none => Except.error Err.unbound) := by
  obtain ⟨t1, e1, r1, c1⟩ :=
    ResGCNLayer.init_forward_ok (f := relu) (θ := θ 0) (o := b) h1 h2
  obtain ⟨t2, e2, r2, c2⟩ :=
    ResGCNLayer.init_forward_ok (f := relu) (θ := θ 1) (o := u) r1 c1
  obtain ⟨fl, al, hloop, hfl, hal, hidx, hflS, halS⟩ :=
    WeightAndSum.init_specLoop_ok (v := true) (r := r) (θ := θ 2) (s := s)
      r2 c2 n le_rfl
  obtain ⟨sh, hshr, hshc, hwas⟩ :=
    WeightAndSum.init_forward_run (v := true) (r := r) (θ := θ 2) (s := s)
      r2 c2 hloop
  have hsetN : bg.setN .h t2 = .ok (bg.withN .h t2) := Graph.setN_ok r2
  obtain ⟨hgT, hmean, hmr, hmc⟩ :=
    mean_nodes_ok (g := bg.withN .h t2) (k := .h) (H := t2) (by simp)
  refine ⟨t2, fl, al, hgT, r2, c2, hloop, hfl, ?_, by simpa using hmr, hmc.trans c2, ?_⟩
  · intro t ht
    obtain ⟨htr, htc⟩ := hflS t ht
    exact ⟨htr, htc.trans c2⟩
  · have hwsr : (MTGL_ADMET.init a b u n r c d θ).weighted_sum_readout =
        WeightAndSum.init u n true r (θ 2) := rfl
    have hrwf : (MTGL_ADMET.init a b u n r c d θ).return_weight = r := rfl
    have hconv1 : (MTGL_ADMET.init a b u n r c d θ).conv1 =
        ResGCNLayer.init a b relu true true (θ 0) := rfl
    have hconv2 : (MTGL_ADMET.init a b u n r c d θ).conv2 =
        ResGCNLayer.init b u relu true true (θ 1) := rfl
    have hng : (MTGL_ADMET.init a b u n r c d θ).num_gates = 4 := rfl
    have htn : (MTGL_ADMET.init a b u n r c d θ).task_num = n := rfl
    cases r with
    | false =>
        simp only [MTGL_ADMET.forward, hconv1, e1, bindOk, hconv2, e2, hwsr, hwas,
          if_true, Bool.false_eq_true, if_false, hrwf, hsetN, hmean, hng, htn]
    | true =>
        simp only [MTGL_ADMET.forward, hconv1, e1, bindOk, hconv2, e2, hwsr, hwas,
          if_true, hrwf, hsetN, hmean, hng, htn]

end ForwardAssembly

section ForwardOutcomes

variable {a b : ℕ} {r : Bool} {c : ℕ} {d : ℚ} {θ : ℕ → Params}
variable {s e : ℚ → ℚ} {bg : Graph} {nf : Tensor}

theorem MTGL_ADMET.init_forward_five_ok (h1 : nf.rows = bg.numNodes) (h2 : nf.cols = a) :
    ∃ p g2, (MTGL_ADMET.init a b 64 5 r c d θ).forward s e bg nf = .ok (p, g2) ∧
      p.rows = bg.numGraphs ∧ p.cols = 5 := by
  obtain ⟨t2, fl, al, hgT, r2, c2, hloop, hfl, hflS, hmr, hmc, heq⟩ :=
    MTGL_ADMET.init_forward_unfold (u := 64) (n := 5) (r := r) (c := c)
      (d := d) (θ := θ) (s := s) (e := e) h1 h2
  obtain ⟨comb, hcomb, hcombl, hcombS⟩ :=
    MTGL_ADMET.init_gateLoop_ok (a := a) (b := b) (u := 64) (n := 5) (r := r)
      (c := c) (d := d) (θ := θ) (e := e)
      hflS (by omega) (by omega) hmc 4 le_rfl
  obtain ⟨c0, hc0, hc0g, hc0m⟩ := getI_ok_of_lt (l := comb) (i := 0) (by omega)
  obtain ⟨c1, hc1, hc1g, hc1m⟩ := getI_ok_of_lt (l := comb) (i := 1) (by omega)
  obtain ⟨c2t, hc2t, hc2g, hc2m⟩ := getI_ok_of_lt (l := comb) (i := 2) (by omega)
  obtain ⟨c3, hc3, hc3g, hc3m⟩ := getI_ok_of_lt (l := comb) (i := 3) (by omega)
  obtain ⟨f0, hf0, hf0g, hf0m⟩ := getI_ok_of_lt (l := fl) (i := 0) (by omega)
  obtain ⟨f1, hf1, hf1g, hf1m⟩ := getI_ok_of_lt (l := fl) (i := 1) (by omega)
  obtain ⟨f2, hf2, hf2g, hf2m⟩ := getI_ok_of_lt (l := fl) (i := 2) (by omega)
  obtain ⟨f3, hf3, hf3g, hf3m⟩ := getI_ok_of_lt (l := fl) (i := 3) (by omega)
  have hc2S : ∀ t ∈ [f0, ((c0.add c1).add c2t).add c3, f1, f2, f3],
      t.rows = bg.numGraphs ∧ t.cols = 64 := by
    intro t ht
    simp only [List.mem_cons, List.not_mem_nil, or_false] at ht
    rcases ht with h | h | h | h | h
    · exact h ▸ hflS f0 hf0m
    · subst h
      simpa using hcombS c0 hc0m
    · exact h ▸ hflS f1 hf1m
    · exact h ▸ hflS f2 hf2m
    · exact h ▸ hflS f3 hf3m
  have hfc :=
    MTGL_ADMET.init_fcLoop_ok (a := a) (b := b) (u := 64) (n := 5) (r := r)
      (c := c) (d := d) (θ := θ) hc2S rfl 5 le_rfl le_rfl
  rcases hfc with ⟨h50, _⟩ | ⟨p, hp, hpr, hpc⟩
  · omega
  · refine ⟨p, bg.withN .h t2, ?_, hpr, hpc⟩
    rw [heq]
    simp only [hcomb, bindOk, hc0, hc1, hc2t, hc3, hf0, hf1, hf2, hf3, hp]

end ForwardOutcomes

section ForwardErrors

variable {a b u n : ℕ} {r : Bool} {c : ℕ} {d : ℚ} {θ : ℕ → Params}
variable {s e : ℚ → ℚ} {bg : Graph} {nf : Tensor}

theorem MTGL_ADMET.init_forward_not_five (h1 : nf.rows = bg.numNodes) (h2 : nf.cols = a)
    (hn : n ≠ 5) :
    (MTGL_ADMET.init a b 64 n r c d θ).forward s e bg nf = .error .index := by
  obtain ⟨t2, fl, al, hgT, r2, c2, hloop, hfl, hflS, hmr, hmc, heq⟩ :=
    MTGL_ADMET.init_forward_unfold (u := 64) (n := n) (r := r) (c := c)
      (d := d) (θ := θ) (s := s) (e := e) h1 h2
  rw [heq]
  cases Nat.lt_or_ge n 5 with
  | inl hlt =>
      have hstep : (MTGL_ADMET.init a b 64 n r c d θ).gateStep e hgT fl 0 =
          .error .index :=
        MTGL_ADMET.init_gateStep_err_of_short (by omega)
      have hgl := MTGL_ADMET.gateLoop_err hstep 4 (by omega)
      simp only [hgl, bindErr]
  | inr hge =>
      have h6 : 6 ≤ n := by omega
      obtain ⟨comb, hcomb, hcombl, hcombS⟩ :=
        MTGL_ADMET.init_gateLoop_ok (a := a) (b := b) (u := 64) (n := n) (r := r)
          (c := c) (d := d) (θ := θ) (e := e)
          hflS (by omega) (by omega) hmc 4 le_rfl
      obtain ⟨c0, hc0, hc0g, hc0m⟩ := getI_ok_of_lt (l := comb) (i := 0) (by omega)
      obtain ⟨c1, hc1, hc1g, hc1m⟩ := getI_ok_of_lt (l := comb) (i := 1) (by omega)
      obtain ⟨c2t, hc2t, hc2g, hc2m⟩ := getI_ok_of_lt (l := comb) (i := 2) (by omega)
      obtain ⟨c3, hc3, hc3g, hc3m⟩ := getI_ok_of_lt (l := comb) (i := 3) (by omega)
      obtain ⟨f0, hf0, hf0g, hf0m⟩ := getI_ok_of_lt (l := fl) (i := 0) (by omega)
      obtain ⟨f1, hf1, hf1g, hf1m⟩ := getI_ok_of_lt (l := fl) (i := 1) (by omega)
      obtain ⟨f2, hf2, hf2g, hf2m⟩ := getI_ok_of_lt (l := fl) (i := 2) (by omega)
      obtain ⟨f3, hf3, hf3g, hf3m⟩ := getI_ok_of_lt (l := fl) (i := 3) (by omega)
      have hc2S : ∀ t ∈ [f0, ((c0.add c1).add c2t).add c3, f1, f2, f3],
          t.rows = bg.numGraphs ∧ t.cols = 64 := by
        intro t ht
        simp only [List.mem_cons, List.not_mem_nil, or_false] at ht
        rcases ht with h | h | h | h | h
        · exact h ▸ hflS f0 hf0m
        · subst h
          simpa using hcombS c0 hc0m
        · exact h ▸ hflS f1 hf1m
        · exact h ▸ hflS f2 hf2m
        · exact h ▸ hflS f3 hf3m
      have hfc :=
        MTGL_ADMET.init_fcLoop_ok (a := a) (b := b) (u := 64) (n := n) (r := r)
          (c := c) (d := d) (θ := θ) hc2S rfl 5 le_rfl (by omega)
      rcases hfc with ⟨h50, _⟩ | ⟨p, hp, hpr, hpc⟩
      · omega
      · have hstep5 : (MTGL_ADMET.init a b 64 n r c d θ).fcStep
            [f0, ((c0.add c1).add c2t).add c3, f1, f2, f3] (some p) 5 = .error .index :=
          MTGL_ADMET.fcStep_err_of_short (by simp) (some p)
        have hsucc : (MTGL_ADMET.init a b 64 n r c d θ).fcLoop
            [f0, ((c0.add c1).add c2t).add c3, f1, f2, f3] (5 + 1) =
            (do
              let acc ← (MTGL_ADMET.init a b 64 n r c d θ).fcLoop
                [f0, ((c0.add c1).add c2t).add c3, f1, f2, f3] 5
              (MTGL_ADMET.init a b 64 n r c d θ).fcStep
                [f0, ((c0.add c1).add c2t).add c3, f1, f2, f3] acc 5) := rfl
        have h6err : (MTGL_ADMET.init a b 64 n r c d θ).fcLoop
            [f0, ((c0.add c1).add c2t).add c3, f1, f2, f3] (5 + 1) = .error .index := by
          rw [hsucc, hp, bindOk]
          exact hstep5
        have hnerr := MTGL_ADMET.fcLoop_err_ge h6err n h6
        simp only [hcomb, bindOk, hc0, hc1, hc2t, hc3, hf0, hf1, hf2, hf3, hnerr, bindErr]

theorem MTGL_ADMET.init_forward_bad_width (h1 : nf.rows = bg.numNodes) (h2 : nf.cols = a)
    (hgo : u ≠ 64) :
    (MTGL_ADMET.init a b u 5 r c d θ).forward s e bg nf = .error .shape := by
  obtain ⟨t2, fl, al, hgT, r2, c2, hloop, hfl, hflS, hmr, hmc, heq⟩ :=
    MTGL_ADMET.init_forward_unfold (u := u) (n := 5) (r := r) (c := c)
      (d := d) (θ := θ) (s := s) (e := e) h1 h2
  rw [heq]
  obtain ⟨f0, hf0, hf0g, hf0m⟩ := getI_ok_of_lt (l := fl) (i := 0) (by omega)
  obtain ⟨f4, hf4, hf4g, hf4m⟩ := getI_ok_of_lt (l := fl) (i := 4) (by omega)
  have hstep : (MTGL_ADMET.init a b u 5 r c d θ).gateStep e hgT fl 0 =
      .error .shape :=
    MTGL_ADMET.init_gateStep_err_shape (by omega) hf0g hf4g (by rw [hmc]; exact hgo)
  have hgl := MTGL_ADMET.gateLoop_err hstep 4 (by omega)
  simp only [hgl, bindErr]

end ForwardErrors

theorem bind_ok_inv {α β : Type} {x : Except Err α} {f : α → Except Err β} {v : β}
    (h : (x >>= f) = .ok v) : ∃ u, x = .ok u ∧ f u = .ok v := by
  cases x with
  | error ε => rw [bindErr] at h; cases h
  | ok u => exact ⟨u, rfl, h⟩

theorem Graph.setN_ok_inv {bg : Graph} {k : Key} {t : Tensor} {g2 : Graph}
    (h : bg.setN k t = .ok g2) : g2 = bg.withN k t := by
  unfold Graph.setN at h
  split at h
  · injection h with h2
    exact h2.symm ▸ rfl
  · cases h

/-- After any successful call of MTGL_ADMET.forward, the returned graph
holds a node-data field 'h' (namely the final node features): the
assignment before the mean-node pooling is not scoped. -/
theorem MTGL_ADMET.forward_sets_h {m : MTGL_ADMET} {s e : ℚ → ℚ} {bg : Graph}
    {nf : Tensor} {p : Tensor} {g2 : Graph}
    (h : m.forward s e bg nf = .ok (p, g2)) :
    ∃ t, g2.ndata Key.h = some t := by
  unfold MTGL_ADMET.forward at h
  obtain ⟨t1, _, h⟩ := bind_ok_inv h
  obtain ⟨t2, _, h⟩ := bind_ok_inv h
  obtain ⟨pr, _, h⟩ := bind_ok_inv h
  obtain ⟨wout, bgr⟩ := pr
  dsimp only at h
  split at h <;> split at h <;> try exact Except.noConfusion h
  all_goals obtain ⟨fl, _, h⟩ := bind_ok_inv h
  all_goals {
  obtain ⟨bg1, hbg1, h⟩ := bind_ok_inv h
  obtain ⟨hgT, _, h⟩ := bind_ok_inv h
  obtain ⟨combine, _, h⟩ := bind_ok_inv h
  obtain ⟨c0, _, h⟩ := bind_ok_inv h
  obtain ⟨c1, _, h⟩ := bind_ok_inv h
  obtain ⟨c2, _, h⟩ := bind_ok_inv h
  obtain ⟨c3, _, h⟩ := bind_ok_inv h
  obtain ⟨f0, _, h⟩ := bind_ok_inv h
  obtain ⟨f1, _, h⟩ := bind_ok_inv h
  obtain ⟨f2, _, h⟩ := bind_ok_inv h
  obtain ⟨f3, _, h⟩ := bind_ok_inv h
  obtain ⟨pred, _, h⟩ := bind_ok_inv h
  cases pred with
  | none => cases h
  | some pall =>
      have hg2 : g2 = bg1 := by
        injection h with h2
        injection h2 with h3 h4
        exact h4.symm
      rw [hg2, Graph.setN_ok_inv hbg1]
      exact ⟨t2, by simp⟩
  }

/-! ## Claim theorems -/

/-- C1 (counterexample): for the concrete 5-task WeightAndSum `cwas`,
the returned feature list has 5 elements — one per task, NOT one per
task plus a shared embedding (which would be 6) — and its element at
position num_gates = 4 differs from the shared weighted-sum embedding
(the value computed by the attention-off twin `cwasS` with the same
parameters).  So feats_list[num_gates] is not the shared embedding. -/
theorem was_shared_not_appended_cex :
    flLen (cwas.forward id cg1 cf1) = some 5 ∧
    flProbe (cwas.forward id cg1 cf1) 4 ≠ singleProbe (cwasS.forward id cg1 cf1) := by
  constructor
  · rfl
  · have h1 : flProbe (cwas.forward id cg1 cf1) 4 = 8 := by
      norm_num [flProbe, cwas, cg1, cf1, θc, WeightAndSum.forward, WeightAndSum.init,
        WeightAndSum.specLoop, WeightAndSum.specificStep, Graph.setN, atomWeight,
        Linear.apply, Tensor.map, sum_nodes, getI, Finset.sum_range_succ,
        Finset.sum_range_zero, bindOk, bindErr]
    have h2 : singleProbe (cwasS.forward id cg1 cf1) = 10 := by
      norm_num [singleProbe, cwasS, cg1, cf1, θc, WeightAndSum.forward, WeightAndSum.init,
        WeightAndSum.specLoop, WeightAndSum.specificStep, Graph.setN, atomWeight,
        Linear.apply, Tensor.map, sum_nodes, getI, Finset.sum_range_succ,
        Finset.sum_range_zero, bindOk, bindErr]
    rw [h1, h2]
    norm_num

/-- C1 (amended): with attention on and return_weight off, the list
returned by WeightAndSum.forward has exactly task_num elements, element
i being the task-i specific weighted-sum embedding; the shared
embedding is computed but never appended (the appending line is
commented out), so position num_gates holds the task-num_gates specific
embedding and the gating step blends feats_list[i] with that, not with
the shared embedding. -/
theorem was_feat_list_task_specific {F T : ℕ} {θ : Params} {s : ℚ → ℚ}
    {bg : Graph} {feats : Tensor}
    (hr : feats.rows = bg.numNodes) (hc : feats.cols = F) :
    ∃ fl, (WeightAndSum.init F T true false θ).forward s bg feats = .ok (.list fl, bg) ∧
      fl.length = T ∧
      ∀ i, i < T →
        ∃ y w, (WeightAndSum.init F T true false θ).specificStep s bg feats i = .ok (y, w) ∧
          fl[i]? = some y := by
  obtain ⟨fl, al, hloop, hfl, hal, hidx, hflS, halS⟩ :=
    WeightAndSum.init_specLoop_ok (v := true) (r := false) hr hc T le_rfl
  obtain ⟨sh, hshr, hshc, hrun⟩ :=
    WeightAndSum.init_forward_run (v := true) (r := false) hr hc hloop
  refine ⟨fl, ?_, hfl, ?_⟩
  · simpa using hrun
  · intro i hi
    obtain ⟨y, w, hstep, hfli, hali⟩ := hidx i hi
    exact ⟨y, w, hstep, hfli⟩

/-- C2: for a model built with gnn_out_feats = 64 and any task count n,
a forward call on a valid input raises IndexError whenever n ≠ 5 and
completes without an index fault exactly when n = 5. -/
theorem mtgl_forward_ok_iff_five_tasks {a b n : ℕ} {r : Bool} {c : ℕ} {d : ℚ}
    {θ : ℕ → Params} {s e : ℚ → ℚ} {bg : Graph} {nf : Tensor}
    (h1 : nf.rows = bg.numNodes) (h2 : nf.cols = a) :
    (n ≠ 5 → (MTGL_ADMET.init a b 64 n r c d θ).forward s e bg nf = .error .index) ∧
    (n = 5 → ∃ p g2, (MTGL_ADMET.init a b 64 n r c d θ).forward s e bg nf =
      .ok (p, g2)) := by
  constructor
  · intro hn
    exact MTGL_ADMET.init_forward_not_five h1 h2 hn
  · intro hn
    subst hn
    obtain ⟨p, g2, hok, _, _⟩ := MTGL_ADMET.init_forward_five_ok (b := b) (r := r)
      (c := c) (d := d) (θ := θ) (s := s) (e := e) h1 h2
    exact ⟨p, g2, hok⟩

/-- C2 witness: at n = 3 on a concrete graph, the forward call is
exactly an IndexError. -/
theorem mtgl_forward_three_tasks_witness :
    (3 ≠ 5 → (MTGL_ADMET.init 1 1 64 3 false 1 0 (fun _ => Params.zero)).forward id id cg1 cf1 =
      .error .index) ∧
    (3 = 5 → ∃ p g2, (MTGL_ADMET.init 1 1 64 3 false 1 0 (fun _ => Params.zero)).forward
      id id cg1 cf1 = .ok (p, g2)) :=
  mtgl_forward_ok_iff_five_tasks (by rfl) (by rfl)

/-- C3: with n_tasks = 5 (and the default gnn_out_feats = 64), forward
succeeds on every valid batched input and the prediction tensor has
shape (batch-size × 5). -/
theorem mtgl_forward_shape_five {a b : ℕ} {r : Bool} {c : ℕ} {d : ℚ}
    {θ : ℕ → Params} {s e : ℚ → ℚ} {bg : Graph} {nf : Tensor}
    (h1 : nf.rows = bg.numNodes) (h2 : nf.cols = a) :
    ∃ p g2, (MTGL_ADMET.init a b 64 5 r c d θ).forward s e bg nf = .ok (p, g2) ∧
      p.rows = bg.numGraphs ∧ p.cols = 5 :=
  MTGL_ADMET.init_forward_five_ok h1 h2

/-- C3 witness: on the one-node one-graph instance the forward call
returns a (1 × 5) prediction. -/
theorem mtgl_forward_shape_five_witness :
    ∃ p g2, (MTGL_ADMET.init 1 1 64 5 false 1 0 (fun _ => Params.zero)).forward
      id id cg1 cf1 = .ok (p, g2) ∧ p.rows = cg1.numGraphs ∧ p.cols = 5 :=
  mtgl_forward_shape_five (by rfl) (by rfl)

/-- C4: evaluating ResGCNLayer.forward with residual disabled on a
concrete input: the call does NOT return a result; it raises
UnboundLocalError, because the source statement `del res_feats` refers
to a local assigned only inside the `if self.residual:` branch. -/
theorem resgcn_residual_false_unbound_eval :
    crg.forward cg1 cf1 = .error .unbound := by rfl

/-- C5: with attention disabled, WeightAndSum.forward returns the
single shared weighted-sum embedding of shape
(batch-size × in_feats), never a list. -/
theorem was_attention_false_single {F T : ℕ} {r : Bool} {θ : Params} {s : ℚ → ℚ}
    {bg : Graph} {feats : Tensor}
    (hr : feats.rows = bg.numNodes) (hc : feats.cols = F) :
    ∃ t, (WeightAndSum.init F T false r θ).forward s bg feats = .ok (.single t, bg) ∧
      t.rows = bg.numGraphs ∧ t.cols = F := by
  obtain ⟨fl, al, hloop, hfl, hal, hidx, hflS, halS⟩ :=
    WeightAndSum.init_specLoop_ok (v := false) (r := r) hr hc T le_rfl
  obtain ⟨sh, hshr, hshc, hrun⟩ :=
    WeightAndSum.init_forward_run (v := false) (r := r) hr hc hloop
  refine ⟨sh, ?_, hshr, hshc.trans hc⟩
  simpa using hrun

/-- C5 witness: concrete attention-off run. -/
theorem was_attention_false_single_witness :
    ∃ t, cwasS.forward id cg1 cf1 = .ok (.single t, cg1) ∧
      t.rows = cg1.numGraphs ∧ t.cols = 1 :=
  was_attention_false_single (by rfl) (by rfl)

/-- C6: a successful WeightAndSum.forward leaves the persistent node
data of the input graph untouched: the temporary 'h' and 'w' fields are
written only on scoped local copies, so afterwards the graph holds
exactly what it held before. -/
theorem was_forward_preserves_ndata {m : WeightAndSum} {s : ℚ → ℚ} {bg : Graph}
    {feats : Tensor} (h : (m.forward s bg feats).isOk = true) :
    (resGraph (m.forward s bg feats) bg).ndata Key.h = bg.ndata Key.h ∧
    (resGraph (m.forward s bg feats) bg).ndata Key.w = bg.ndata Key.w := by
  cases hr : m.forward s bg feats with
  | error ε => rw [hr] at h; simp [Except.isOk, Except.toBool] at h
  | ok pr =>
      obtain ⟨o, g2⟩ := pr
      have hg := WeightAndSum.forward_graph_eq hr
      simp [resGraph, hg]

/-- C6 witness: concrete run on a graph with empty node data. -/
theorem was_forward_preserves_ndata_witness :
    (resGraph (cwas.forward id cg1 cf1) cg1).ndata Key.h = cg1.ndata Key.h ∧
    (resGraph (cwas.forward id cg1 cf1) cg1).ndata Key.w = cg1.ndata Key.w :=
  was_forward_preserves_ndata (by rfl)

/-- C7: the 2-way softmax used by the gating step sums to exactly 1 on
every row and both components are nonnegative, for every exponential
that is pointwise positive — so each gated combination is a convex
blend of the two stacked representations. -/
theorem gate_softmax_convex {e : ℚ → ℚ} (hpos : ∀ x, 0 < e x) {t : Tensor}
    (h2 : t.cols = 2) (r : ℕ) :
    (softmaxRow e t).data r 0 + (softmaxRow e t).data r 1 = 1 ∧
    0 ≤ (softmaxRow e t).data r 0 ∧ 0 ≤ (softmaxRow e t).data r 1 := by
  have hS : ∑ j in Finset.range t.cols, e (t.data r j) =
      e (t.data r 0) + e (t.data r 1) := by
    rw [h2, Finset.sum_range_succ, Finset.sum_range_one]
  have hSpos : 0 < e (t.data r 0) + e (t.data r 1) := by
    have ha := hpos (t.data r 0)
    have hb := hpos (t.data r 1)
    linarith
  refine ⟨?_, ?_, ?_⟩
  · simp only [softmaxRow, hS]
    rw [div_add_div_same, div_self (ne_of_gt hSpos)]
  · simp only [softmaxRow, hS]
    exact div_nonneg (le_of_lt (hpos _)) (le_of_lt hSpos)
  · simp only [softmaxRow, hS]
    exact div_nonneg (le_of_lt (hpos _)) (le_of_lt hSpos)

/-- C7 witness: concrete gate logits and a concrete positive
exponential. -/
theorem gate_softmax_convex_witness :
    (softmaxRow (fun _ => 1) ⟨1, 2, fun _ _ => 0⟩).data 0 0 +
      (softmaxRow (fun _ => 1) ⟨1, 2, fun _ _ => 0⟩).data 0 1 = 1 ∧
    0 ≤ (softmaxRow (fun _ => 1) ⟨1, 2, fun _ _ => 0⟩).data 0 0 ∧
    0 ≤ (softmaxRow (fun _ => 1) ⟨1, 2, fun _ _ => 0⟩).data 0 1 :=
  gate_softmax_convex (fun _ => one_pos) rfl 0

/-- C8: with attention and return_weight both on, WeightAndSum.forward
also returns one node-weight tensor per task, each with exactly as many
rows as the input node-feature tensor. -/
theorem was_return_weight_rows {F T : ℕ} {θ : Params} {s : ℚ → ℚ}
    {bg : Graph} {feats : Tensor}
    (hr : feats.rows = bg.numNodes) (hc : feats.cols = F) :
    ∃ fl al, (WeightAndSum.init F T true true θ).forward s bg feats =
        .ok (.withWeight fl al, bg) ∧
      al.length = T ∧ ∀ w ∈ al, w.rows = feats.rows := by
  obtain ⟨fl, al, hloop, hfl, hal, hidx, hflS, halS⟩ :=
    WeightAndSum.init_specLoop_ok (v := true) (r := true) hr hc T le_rfl
  obtain ⟨sh, hshr, hshc, hrun⟩ :=
    WeightAndSum.init_forward_run (v := true) (r := true) hr hc hloop
  refine ⟨fl, al, ?_, hal, fun w hw => (halS w hw).1⟩
  simpa using hrun

/-- C8 witness: concrete run with return_weight on. -/
theorem was_return_weight_rows_witness :
    ∃ fl al, cwasW.forward id cg1 cf1 = .ok (.withWeight fl al, cg1) ∧
      al.length = 5 ∧ ∀ w ∈ al, w.rows = cf1.rows :=
  was_return_weight_rows (by rfl) (by rfl)

/-- C9: every successful MTGL_ADMET.forward call returns a graph that
carries a node-data field 'h' (the assignment `bg.ndata['h'] =
node_feats` before the mean pooling is not inside a local scope), so
the input graph is mutated by a forward pass. -/
theorem mtgl_forward_retains_h {m : MTGL_ADMET} {s e : ℚ → ℚ} {bg : Graph}
    {nf : Tensor} (h : (m.forward s e bg nf).isOk = true) :
    ∃ t, (resGraph (m.forward s e bg nf) bg).ndata Key.h = some t := by
  cases hr : m.forward s e bg nf with
  | error ε => rw [hr] at h; simp [Except.isOk, Except.toBool] at h
  | ok pr =>
      obtain ⟨p, g2⟩ := pr
      obtain ⟨t, ht⟩ := MTGL_ADMET.forward_sets_h hr
      exact ⟨t, by simpa [resGraph] using ht⟩

/-- C9 witness: the concrete 5-task model run ends with 'h' set, while
the input graph had no node data at all. -/
theorem mtgl_forward_retains_h_witness :
    ∃ t, (resGraph ((MTGL_ADMET.init 1 1 64 5 false 1 0 (fun _ => Params.zero)).forward
      id id cg1 cf1) cg1).ndata Key.h = some t :=
  mtgl_forward_retains_h (by rfl)

/-- C10: with n_tasks = 5, a forward call on a valid input faults with
a dimension mismatch at the gate application whenever
gnn_out_feats ≠ 64 (the gates are Linear(64, 2) regardless of the
configured width), and succeeds when gnn_out_feats = 64. -/
theorem mtgl_gate_width_64 {a b u : ℕ} {r : Bool} {c : ℕ} {d : ℚ}
    {θ : ℕ → Params} {s e : ℚ → ℚ} {bg : Graph} {nf : Tensor}
    (h1 : nf.rows = bg.numNodes) (h2 : nf.cols = a) :
    (u ≠ 64 → (MTGL_ADMET.init a b u 5 r c d θ).forward s e bg nf =
      .error .shape) ∧
    (u = 64 → ∃ p g2, (MTGL_ADMET.init a b u 5 r c d θ).forward s e bg nf =
      .ok (p, g2)) := by
  constructor
  · intro hgo
    exact MTGL_ADMET.init_forward_bad_width h1 h2 hgo
  · intro hgo
    subst hgo
    obtain ⟨p, g2, hok, _, _⟩ := MTGL_ADMET.init_forward_five_ok (b := b) (r := r)
      (c := c) (d := d) (θ := θ) (s := s) (e := e) h1 h2
    exact ⟨p, g2, hok⟩

/-- C10 witness: at gnn_out_feats = 63 the concrete forward call is
exactly a shape fault. -/
theorem mtgl_gate_width_64_witness :
    (63 ≠ 64 → (MTGL_ADMET.init 1 1 63 5 false 1 0 (fun _ => Params.zero)).forward
      id id cg1 cf1 = .error .shape) ∧
    (63 = 64 → ∃ p g2, (MTGL_ADMET.init 1 1 63 5 false 1 0 (fun _ => Params.zero)).forward
      id id cg1 cf1 = .ok (p, g2)) :=
  mtgl_gate_width_64 (by rfl) (by rfl)

/-- C1 witness (amended claim): concrete 5-task run, the list has the 5
task-specific embeddings. -/
theorem was_shared_not_appended_cex_witness :
    ∃ fl, (WeightAndSum.init 1 5 true false θc).forward id cg1 cf1 = .ok (.list fl, cg1) ∧
      fl.length = 5 ∧
      ∀ i, i < 5 →
        ∃ s w, (WeightAndSum.init 1 5 true false θc).specificStep id cg1 cf1 i = .ok (s, w) ∧
          fl[i]? = some s :=
  was_feat_list_task_specific (by rfl) (by rfl)

end MTGL
